import Mathlib

/-!
Verification development for a two-party end-to-end encrypted chat client
(ECDH handshake, HKDF session-key derivation, AES-256-GCM + HMAC-SHA256
message envelopes, pending-message queue), shallowly embedded from the
JavaScript sources `lib/crypto.js` and `src/client/index.js`.

Byte strings are modelled as `List Nat` (one entry per byte).  The
cryptographic primitives provided by the Node.js runtime (`crypto.*`) are
not part of the repository; they are abstracted as fields of `CryptoPrims`,
and the contracts the repository relies on (AEAD round-trip, ECDH symmetry,
UTF-8 codec round-trip) appear as explicit hypotheses of the theorems that
need them.  Everything written by the repository itself (key derivation,
fingerprint formatting, envelope construction and verification, the client
event handler with its handshake guards and pending queue) is translated
directly from the source.  Console logging is modelled as an `Effect`
trace where it is security relevant (handshake sends, failure reports,
delivered plaintexts); purely cosmetic output is dropped.
-/

/-- A byte string: one `Nat` per byte (values 0..255 in all real uses). -/
abbrev Bytes := List Nat

/-- The primitives the repository imports from Node's `crypto` module and
`Buffer` string codecs.  They are opaque parameters of the development:
the repository treats them as black boxes and so do we. -/
structure CryptoPrims where
  /-- `crypto.createHash("sha256").update(b).digest()` -/
  sha256 : Bytes → Bytes
  /-- `crypto.hkdfSync("sha256", ikm, salt, info, len)` -/
  hkdfCore : Bytes → Bytes → Bytes → Nat → Bytes
  /-- AES-256-GCM encryption core, `(key, iv, plaintext, aad) ↦ (ct, tag)`:
  `crypto.createCipheriv("aes-256-gcm", ...)` with the AAD bound in. -/
  aesGcmEncCore : Bytes → Bytes → Bytes → Bytes → Bytes × Bytes
  /-- AES-256-GCM decryption core, `none` models the exception thrown on
  tag mismatch or malformed ciphertext. -/
  aesGcmDecCore : Bytes → Bytes → Bytes → Bytes → Bytes → Option Bytes
  /-- `crypto.createHmac("sha256", key).update(data).digest()` -/
  hmacCore : Bytes → Bytes → Bytes
  /-- `ecdh.computeSecret(otherPub)`: `(own private handle, peer public key)
  ↦ shared secret`. -/
  ecdhSecret : Bytes → Bytes → Bytes
  /-- `Buffer.from(s, "utf8")` -/
  utf8Enc : String → Bytes
  /-- `buf.toString("utf8")` -/
  utf8Dec : Bytes → String

/-! ## lib/crypto.js -/

/-- `hkdfSha256(ikm, salt, info, len)`: `Buffer.from` of the raw key
material is the identity on the byte level. -/
def hkdfSha256 (p : CryptoPrims) (ikm salt info : Bytes) (len : Nat) : Bytes :=
  p.hkdfCore ikm salt info len

/-- The pair of session keys returned by `deriveSessionKeys`. -/
structure SessionKeys where
  kEnc : Bytes
  kMac : Bytes
deriving DecidableEq

/-- `buf.subarray(s, e)` on a Node `Buffer`. -/
def subarray (b : Bytes) (s e : Nat) : Bytes :=
  (b.drop s).take (e - s)

/-- `deriveSessionKeys(sharedSecret, context)` from `lib/crypto.js`:
salt is the SHA-256 digest of the literal `"chat-e2ee-salt"`, 64 bytes of
output key material come from HKDF-SHA256 with info = the UTF-8 bytes of
`context`, and the two keys are `okm.subarray(0,32)` / `okm.subarray(32,64)`. -/
def deriveSessionKeys (p : CryptoPrims) (sharedSecret : Bytes)
    (context : String) : SessionKeys :=
  let salt := p.sha256 (p.utf8Enc "chat-e2ee-salt")
  let okm := hkdfSha256 p sharedSecret salt (p.utf8Enc context) 64
  { kEnc := subarray okm 0 32, kMac := subarray okm 32 64 }

/-- One lowercase hexadecimal digit. -/
def hexDigitChar (d : Nat) : Char :=
  "0123456789abcdef".data.getD d 'x'

/-- The two hex characters of one byte (bytes are 0..255, so
`n / 16 % 16` is just `n / 16` on real inputs). -/
def byteHex (n : Nat) : List Char :=
  [hexDigitChar (n / 16 % 16), hexDigitChar (n % 16)]

/-- `buf.toString("hex")` as a character list. -/
def hexDigest (b : Bytes) : List Char :=
  (b.map byteHex).flatten

/-- `s.slice(a, b)` on a JavaScript string, at the character-list level. -/
def strSlice (l : List Char) (a b : Nat) : List Char :=
  (l.drop a).take (b - a)

/-- `fingerprint(buf)` from `lib/crypto.js`: the SHA-256 hex digest sliced
into the four 6-character groups `h.slice(0,6)-h.slice(6,12)-h.slice(12,18)-h.slice(18,24)`. -/
def fingerprint (p : CryptoPrims) (buf : Bytes) : String :=
  let h := hexDigest (p.sha256 buf)
  String.mk (strSlice h 0 6) ++ "-" ++ String.mk (strSlice h 6 12) ++ "-" ++
    String.mk (strSlice h 12 18) ++ "-" ++ String.mk (strSlice h 18 24)

/-- `encryptAesGcm(kEnc, plaintext, aad)`: the source draws a fresh random
12-byte IV from `crypto.randomBytes`; randomness is externalised as the
`iv` argument.  The plaintext string is encrypted via its UTF-8 bytes.
Returns `(iv, ct, tag)` as in the source. -/
def encryptAesGcm (p : CryptoPrims) (kEnc iv : Bytes) (plaintext : String)
    (aad : Bytes) : Bytes × Bytes × Bytes :=
  let r := p.aesGcmEncCore kEnc iv (p.utf8Enc plaintext) aad
  (iv, r.1, r.2)

/-- `decryptAesGcm(kEnc, iv, ct, tag, aad)`: decrypt, then
`pt.toString("utf8")`; the exception on tag failure becomes `none`. -/
def decryptAesGcm (p : CryptoPrims) (kEnc iv ct tag aad : Bytes) :
    Option String :=
  (p.aesGcmDecCore kEnc iv ct tag aad).map p.utf8Dec

/-- `hmacSha256(kMac, data)` from `lib/crypto.js`. -/
def hmacSha256 (p : CryptoPrims) (kMac data : Bytes) : Bytes :=
  p.hmacCore kMac data

/-- `crypto.timingSafeEqual(a, b)` under its equal-length precondition:
constant-time bytewise equality.  (The Node primitive throws when the
lengths differ; the repository's `timingSafeEq` guard below ensures it is
only ever invoked on equal-length inputs.) -/
def timingSafeEqualNode (a b : Bytes) : Bool :=
  decide (a = b)

/-- `timingSafeEq(a, b)` from `lib/crypto.js`: length guard, then the
constant-time primitive. -/
def timingSafeEq (a b : Bytes) : Bool :=
  if a.length ≠ b.length then false else timingSafeEqualNode a b

/-! ## src/client/index.js -/

/-- JSON string-character escaping as performed by `JSON.stringify` on the
quote and backslash (the characters that can occur in room or peer
identifiers; control-character escapes are irrelevant to every claim and
elided). -/
def jsonEscapeChar (c : Char) : List Char :=
  if c = '"' ∨ c = '\\' then ['\\', c] else [c]

/-- A JSON string literal for `s`. -/
def jsonString (s : String) : String :=
  "\"" ++ String.mk ((s.data.map jsonEscapeChar).flatten) ++ "\""

/-- `buildAad(room, from, to, counter)`: the UTF-8 bytes of
`JSON.stringify (\x7b room, from, to, counter \x7d)` with the fields in that
(insertion) order. -/
def buildAad (p : CryptoPrims) (room sender dest : String) (counter : Nat) :
    Bytes :=
  p.utf8Enc ("\x7b\"room\":" ++ jsonString room ++ ",\"from\":" ++
    jsonString sender ++ ",\"to\":" ++ jsonString dest ++
    ",\"counter\":" ++ toString counter ++ "\x7d")

/-- The decoded payload of a `msg` envelope (`iv`, `ct`, `tag`, `hmac`
after base64 decoding). -/
structure MsgPayload where
  counter : Nat
  iv : Bytes
  ct : Bytes
  tag : Bytes
  hmac : Bytes
deriving DecidableEq

/-- A received `msg` envelope as stored on the pending queue: the sender
(`from` field) together with its payload. -/
structure InMsg where
  sender : String
  payload : MsgPayload
deriving DecidableEq

/-- An inbound envelope after JSON parsing and the `to !== me` filter.
The handshake curve is an `Option` because `payload?.curve` may be
absent (`undefined` compares unequal to the local curve string). -/
inductive Envelope where
  | joinedAck : Envelope
  | reqHandshake : String → Envelope
  | handshake : String → Option String → Bytes → Envelope
  | message : String → MsgPayload → Envelope

/-- The per-process configuration of one client: room, own and peer
identity, the selected curve, and the private ECDH handle. -/
structure Config where
  room : String
  me : String
  peer : String
  curve : String
  priv : Bytes

/-- The mutable client state captured by `main`'s closure (plus the two
module-level flags `joined` / `handshakeSent`). -/
structure ClientState where
  joined : Bool
  handshakeSent : Bool
  session : Option SessionKeys
  sendCounter : Nat
  recvCounter : Nat
  peerHandshakeReceived : Bool
  pendingMessages : List InMsg
deriving DecidableEq

/-- The state at client start-up. -/
def initState : ClientState :=
  { joined := false, handshakeSent := false, session := none,
    sendCounter := 0, recvCounter := 0, peerHandshakeReceived := false,
    pendingMessages := [] }

/-- The security-relevant observable actions of one handler run. -/
inductive Effect where
  | sentHandshake : String → Effect
  | curveMismatch : Effect
  | hmacFailed : Effect
  | decryptFailed : Effect
  | messageShown : String → String → Effect
deriving DecidableEq

/-- `handleEncryptedMessage(msg)`: guard on `session`, rebuild the AAD from
the envelope's own `(room, from, me, counter)`, recompute the HMAC over
`aad ++ iv ++ ct ++ tag`, compare with `timingSafeEq`, and only then
attempt AES-GCM decryption (incrementing `recvCounter` on success). -/
def handleEncryptedMessage (p : CryptoPrims) (cfg : Config)
    (st : ClientState) (m : InMsg) : ClientState × List Effect :=
  match st.session with
  | none => (st, [])
  | some sess =>
    let aad := buildAad p cfg.room m.sender cfg.me m.payload.counter
    let macData := aad ++ m.payload.iv ++ m.payload.ct ++ m.payload.tag
    let macExpected := hmacSha256 p sess.kMac macData
    if timingSafeEq macExpected m.payload.hmac then
      match decryptAesGcm p sess.kEnc m.payload.iv m.payload.ct
          m.payload.tag aad with
      | some text =>
        ({ st with recvCounter := st.recvCounter + 1 },
         [Effect.messageShown m.sender text])
      | none => (st, [Effect.decryptFailed])
    else (st, [Effect.hmacFailed])

/-- The `pendingMessages.forEach(handleEncryptedMessage)` loop: each queued
envelope in original arrival order, threading the state and concatenating
the observable effects. -/
def drainQueue (p : CryptoPrims) (cfg : Config) :
    ClientState → List InMsg → ClientState × List Effect
  | st, [] => (st, [])
  | st, m :: rest =>
    let r := handleEncryptedMessage p cfg st m
    let r2 := drainQueue p cfg r.1 rest
    (r2.1, r.2 ++ r2.2)

/-- `processPendingMessages()`: when the queue is non-empty, run the drain
loop and then reset `pendingMessages = []`. -/
def processPendingMessages (p : CryptoPrims) (cfg : Config)
    (st : ClientState) : ClientState × List Effect :=
  if st.pendingMessages.length > 0 then
    let r := drainQueue p cfg st st.pendingMessages
    ({ r.1 with pendingMessages := [] }, r.2)
  else (st, [])

/-- The lexicographic (code-unit) string comparison used by the JavaScript
default `Array.prototype.sort` comparator: `strLtb a b = true` iff `a < b`. -/
def strLtb : List Char → List Char → Bool
  | [], [] => false
  | [], _ :: _ => true
  | _ :: _, [] => false
  | a :: as, b :: bs =>
    if a.toNat < b.toNat then true
    else if b.toNat < a.toNat then false
    else strLtb as bs

/-- The symmetric session context built in the handshake handler:
`[me, from].sort()` (two-element ascending sort, so swap exactly when
`from < me`) followed by
`room:` room `|peer1:` id1 `|peer2:` id2 `|curve:` curve. -/
def mkContext (room a b curve : String) : String :=
  let id1 := if strLtb b.data a.data then b else a
  let id2 := if strLtb b.data a.data then a else b
  "room:" ++ room ++ "|peer1:" ++ id1 ++ "|peer2:" ++ id2 ++
    "|curve:" ++ curve

/-- The `ws.on("message")` handler of `src/client/index.js`, one inbound
envelope at a time (the process is single-threaded and each handler runs to
completion).  The 500 ms `request_handshake` nudge timer is an outbound-only
deferred task and is not needed by any claim. -/
def step (p : CryptoPrims) (cfg : Config) (st : ClientState)
    (e : Envelope) : ClientState × List Effect :=
  match e with
  | Envelope.joinedAck =>
    let st1 := { st with joined := true }
    if st1.handshakeSent then (st1, [])
    else ({ st1 with handshakeSent := true }, [Effect.sentHandshake cfg.peer])
  | Envelope.reqHandshake sender =>
    (st, [Effect.sentHandshake sender])
  | Envelope.handshake sender otherCurve otherPub =>
    if st.peerHandshakeReceived then (st, [])
    else if otherCurve ≠ some cfg.curve then (st, [Effect.curveMismatch])
    else
      let r1 : ClientState × List Effect :=
        if st.handshakeSent then (st, [])
        else ({ st with handshakeSent := true }, [Effect.sentHandshake sender])
      let shared := p.ecdhSecret cfg.priv otherPub
      let context := mkContext cfg.room cfg.me sender cfg.curve
      let keys := deriveSessionKeys p shared context
      let st2 := { r1.1 with session := some keys,
                             peerHandshakeReceived := true }
      let r2 := processPendingMessages p cfg st2
      (r2.1, r1.2 ++ r2.2)
  | Envelope.message sender payload =>
    match st.session with
    | none =>
      ({ st with pendingMessages :=
          st.pendingMessages ++ [{ sender := sender, payload := payload }] },
       [])
    | some _ => handleEncryptedMessage p cfg st
        { sender := sender, payload := payload }

/-- The outbound path of `promptLoop` for one typed line: increment
`sendCounter`, build the AAD from `(room, me, peer, counter)`, encrypt,
MAC over `aad ++ iv ++ ct ++ tag`, and emit the payload.  `none` when no
session is established (the source just prints a waiting notice). -/
def sealMessage (p : CryptoPrims) (cfg : Config) (st : ClientState)
    (iv : Bytes) (line : String) : Option (ClientState × MsgPayload) :=
  match st.session with
  | none => none
  | some sess =>
    let c := st.sendCounter + 1
    let aad := buildAad p cfg.room cfg.me cfg.peer c
    let r := encryptAesGcm p sess.kEnc iv line aad
    let macData := aad ++ r.1 ++ r.2.1 ++ r.2.2
    let mac := hmacSha256 p sess.kMac macData
    some ({ st with sendCounter := c },
      { counter := c, iv := r.1, ct := r.2.1, tag := r.2.2, hmac := mac })

/-- The states reachable by the client from start-up under some sequence of
inbound envelopes. -/
inductive Reachable (p : CryptoPrims) (cfg : Config) : ClientState → Prop
  | init : Reachable p cfg initState
  | next : ∀ {st : ClientState} (e : Envelope),
      Reachable p cfg st → Reachable p cfg (step p cfg st e).1

/-! ## Concrete primitive instance

A small executable instance of `CryptoPrims`, used to evaluate the model at
concrete inputs.  The functions are simple stand-ins that satisfy the
library contracts needed at those inputs (the theorems themselves are
proved for every `CryptoPrims`). -/

/-- An executable stand-in for the Node primitives. -/
def testPrims : CryptoPrims where
  sha256 := fun b => List.replicate 32 (b.length % 256)
  hkdfCore := fun ikm salt info len =>
    (List.range len).map
      (fun i => (i + ikm.length + salt.length + info.length) % 256)
  aesGcmEncCore := fun _ _ pt _ => (pt, [7])
  aesGcmDecCore := fun _ _ ct _ _ => some ct
  hmacCore := fun k d => [k.length % 256, d.length % 256]
  ecdhSecret := fun a b => [(a.sum + b.sum) % 256]
  utf8Enc := fun s => s.data.map Char.toNat
  utf8Dec := fun b => String.mk (b.map Char.ofNat)

/-! ## Helper lemmas -/

theorem strLtb_asymm : ∀ as bs, strLtb as bs = true → strLtb bs as = false := by
  intro as
  induction as with
  | nil =>
    intro bs h
    cases bs with
    | nil => simp [strLtb] at h
    | cons b bs => simp [strLtb]
  | cons a as ih =>
    intro bs h
    cases bs with
    | nil => simp [strLtb] at h
    | cons b bs =>
      simp only [strLtb] at h ⊢
      by_cases hab : a.toNat < b.toNat
      · simp [hab, show ¬ b.toNat < a.toNat by omega]
      · by_cases hba : b.toNat < a.toNat
        · simp [hab, hba] at h
        · simp only [hab, hba, if_false] at h ⊢
          exact ih bs h

theorem strLtb_ff_antisymm :
    ∀ as bs, strLtb as bs = false → strLtb bs as = false → as = bs := by
  intro as
  induction as with
  | nil =>
    intro bs h1 h2
    cases bs with
    | nil => rfl
    | cons b bs => simp [strLtb] at h1
  | cons a as ih =>
    intro bs h1 h2
    cases bs with
    | nil => simp [strLtb] at h2
    | cons b bs =>
      simp only [strLtb] at h1 h2
      by_cases hab : a.toNat < b.toNat
      · simp [hab] at h1
      · by_cases hba : b.toNat < a.toNat
        · simp [hba] at h2
        · have hc : a = b := by
            have hn : a.toNat = b.toNat := by omega
            rw [← Char.ofNat_toNat a, ← Char.ofNat_toNat b, hn]
          simp only [hab, hba, if_false] at h1 h2
          rw [hc, ih bs h1 h2]

theorem mkContext_comm (room a b curve : String) :
    mkContext room a b curve = mkContext room b a curve := by
  unfold mkContext
  by_cases h1 : strLtb b.data a.data = true
  · have h2 : strLtb a.data b.data = false := strLtb_asymm _ _ h1
    simp [h1, h2]
  · have h1f : strLtb b.data a.data = false := by simpa using h1
    by_cases h2 : strLtb a.data b.data = true
    · simp [h1f, h2]
    · have h2f : strLtb a.data b.data = false := by simpa using h2
      have hd : a.data = b.data := strLtb_ff_antisymm _ _ h2f h1f
      have hab : a = b := by
        cases a; cases b; exact congrArg String.mk (by simpa using hd)
      subst hab
      rfl

theorem hem_preserves (p : CryptoPrims) (cfg : Config) (st : ClientState)
    (m : InMsg) :
    (handleEncryptedMessage p cfg st m).1.session = st.session ∧
    (handleEncryptedMessage p cfg st m).1.pendingMessages = st.pendingMessages ∧
    (handleEncryptedMessage p cfg st m).1.peerHandshakeReceived
      = st.peerHandshakeReceived ∧
    (handleEncryptedMessage p cfg st m).1.handshakeSent = st.handshakeSent := by
  unfold handleEncryptedMessage
  cases h : st.session with
  | none => simp [h]
  | some sess =>
    dsimp only
    split
    · split <;> simp [h]
    · simp [h]

theorem drainQueue_preserves (p : CryptoPrims) (cfg : Config) :
    ∀ (msgs : List InMsg) (st : ClientState),
    (drainQueue p cfg st msgs).1.session = st.session ∧
    (drainQueue p cfg st msgs).1.pendingMessages = st.pendingMessages ∧
    (drainQueue p cfg st msgs).1.peerHandshakeReceived
      = st.peerHandshakeReceived ∧
    (drainQueue p cfg st msgs).1.handshakeSent = st.handshakeSent := by
  intro msgs
  induction msgs with
  | nil => intro st; simp [drainQueue]
  | cons m rest ih =>
    intro st
    have h1 := hem_preserves p cfg st m
    have h2 := ih (handleEncryptedMessage p cfg st m).1
    simp only [drainQueue]
    exact ⟨h2.1.trans h1.1, h2.2.1.trans h1.2.1,
      h2.2.2.1.trans h1.2.2.1, h2.2.2.2.trans h1.2.2.2⟩

theorem ppm_session (p : CryptoPrims) (cfg : Config) (st : ClientState) :
    (processPendingMessages p cfg st).1.session = st.session := by
  unfold processPendingMessages
  split
  · simpa using (drainQueue_preserves p cfg st.pendingMessages st).1
  · rfl

theorem ppm_flag (p : CryptoPrims) (cfg : Config) (st : ClientState) :
    (processPendingMessages p cfg st).1.peerHandshakeReceived
      = st.peerHandshakeReceived := by
  unfold processPendingMessages
  split
  · simpa using (drainQueue_preserves p cfg st.pendingMessages st).2.2.1
  · rfl

theorem ppm_pending (p : CryptoPrims) (cfg : Config) (st : ClientState) :
    (processPendingMessages p cfg st).1.pendingMessages = [] := by
  unfold processPendingMessages
  split
  · simp
  · next h =>
    have hz : st.pendingMessages.length = 0 := by omega
    exact List.length_eq_zero.mp hz

theorem step_handshake_session (p : CryptoPrims) (cfg : Config)
    (st : ClientState) (sender : String) (pub : Bytes)
    (h : st.peerHandshakeReceived = false) :
    (step p cfg st (Envelope.handshake sender (some cfg.curve) pub)).1.session
      = some (deriveSessionKeys p (p.ecdhSecret cfg.priv pub)
          (mkContext cfg.room cfg.me sender cfg.curve)) := by
  unfold step
  by_cases hs : st.handshakeSent <;> simp [h, hs, ppm_session]

/-- The invariant of claim C9: an established session implies that the
duplicate-handshake guard is set and the pending queue is empty. -/
def SessionInv (st : ClientState) : Prop :=
  st.session.isSome = true →
    (st.peerHandshakeReceived = true ∧ st.pendingMessages = [])

theorem step_preserves_sessionInv (p : CryptoPrims) (cfg : Config)
    (st : ClientState) (e : Envelope) (h : SessionInv st) :
    SessionInv (step p cfg st e).1 := by
  obtain ⟨j, hsent, ses, sc, rc, phr, pm⟩ := st
  cases e with
  | joinedAck => cases hsent <;> simpa [step, SessionInv] using h
  | reqHandshake s => simpa [step, SessionInv] using h
  | handshake sender oc pub =>
    cases phr with
    | true => simpa [step, SessionInv] using h
    | false =>
      by_cases hc : oc ≠ some cfg.curve
      · simpa [step, SessionInv, hc] using h
      · have hc2 : oc = some cfg.curve := not_not.mp hc
        subst hc2
        cases hsent <;>
          simp [step, SessionInv, ppm_session, ppm_flag, ppm_pending]
  | message sender payload =>
    cases ses with
    | none => simp [step, SessionInv]
    | some k =>
      have hp := hem_preserves p cfg ⟨j, hsent, some k, sc, rc, phr, pm⟩
        ⟨sender, payload⟩
      have hh := h (by simp)
      simp only [step]
      intro _
      exact ⟨hp.2.2.1.trans hh.1, hp.2.1.trans hh.2⟩

theorem reachable_sessionInv (p : CryptoPrims) (cfg : Config)
    {st : ClientState} (h : Reachable p cfg st) : SessionInv st := by
  induction h with
  | init => intro hs; simp [initState] at hs
  | next e _ ih => exact step_preserves_sessionInv _ _ _ _ ih

/-! ## Claims -/

/-- The specification's description of `derive(sharedSecret, context)`:
salt = SHA-256 of the fixed literal "chat-e2ee-salt", okm =
HKDF-SHA256(ikm = sharedSecret, salt, info = context, length = 64),
encKey = okm[0:32], macKey = okm[32:64]. -/
def deriveSessionKeysSpecModel (p : CryptoPrims) (sharedSecret : Bytes)
    (context : String) : SessionKeys :=
  let salt := p.sha256 (p.utf8Enc "chat-e2ee-salt")
  let okm := p.hkdfCore sharedSecret salt (p.utf8Enc context) 64
  { kEnc := okm.take 32, kMac := (okm.drop 32).take 32 }

/-- C7: `deriveSessionKeys` computes the salt as the SHA-256 digest of the
literal "chat-e2ee-salt", derives 64 bytes of HKDF-SHA256 output keyed by
the shared secret with info = context, returns bytes 0..31 as `encKey` and
bytes 32..63 as `macKey`, and is deterministic (equal inputs give equal
keys). -/
theorem c7_derive_follows_spec (p : CryptoPrims) (ss ss2 : Bytes)
    (ctx ctx2 : String) (h1 : ss = ss2) (h2 : ctx = ctx2) :
    deriveSessionKeys p ss ctx = deriveSessionKeysSpecModel p ss ctx ∧
    deriveSessionKeys p ss ctx = deriveSessionKeys p ss2 ctx2 := by
  subst h1
  subst h2
  refine ⟨?_, rfl⟩
  unfold deriveSessionKeys deriveSessionKeysSpecModel hkdfSha256 subarray
  norm_num

theorem c7_witness :
    deriveSessionKeys testPrims [1] "room:r1|peer1:alice|peer2:bob|curve:x25519"
      = deriveSessionKeysSpecModel testPrims [1]
          "room:r1|peer1:alice|peer2:bob|curve:x25519" ∧
    deriveSessionKeys testPrims [1] "room:r1|peer1:alice|peer2:bob|curve:x25519"
      = deriveSessionKeys testPrims [1]
          "room:r1|peer1:alice|peer2:bob|curve:x25519" :=
  c7_derive_follows_spec testPrims [1] [1]
    "room:r1|peer1:alice|peer2:bob|curve:x25519"
    "room:r1|peer1:alice|peer2:bob|curve:x25519" rfl rfl

/-- The specification's description of `fingerprint(publicKeyBytes)`: the
first 24 hexadecimal characters of the SHA-256 hex digest, formatted as
four 6-character groups separated by hyphens. -/
def fingerprintSpecModel (p : CryptoPrims) (buf : Bytes) : String :=
  let h24 := (hexDigest (p.sha256 buf)).take 24
  String.mk (h24.take 6) ++ "-" ++ String.mk ((h24.drop 6).take 6) ++ "-" ++
    String.mk ((h24.drop 12).take 6) ++ "-" ++ String.mk ((h24.drop 18).take 6)

/-- C8: `fingerprint` returns the first 24 hex characters of the SHA-256
hex digest of the input bytes as four 6-character hyphen-separated groups,
and is deterministic (equal input bytes give the same string). -/
theorem c8_fingerprint_follows_spec (p : CryptoPrims) (buf buf2 : Bytes)
    (h : buf = buf2) :
    fingerprint p buf = fingerprintSpecModel p buf ∧
    fingerprint p buf = fingerprint p buf2 := by
  subst h
  refine ⟨?_, rfl⟩
  unfold fingerprint fingerprintSpecModel strSlice
  simp [List.drop_take, List.take_take]

theorem c8_witness :
    fingerprint testPrims [1, 2, 3] = fingerprintSpecModel testPrims [1, 2, 3] ∧
    fingerprint testPrims [1, 2, 3] = fingerprint testPrims [1, 2, 3] :=
  c8_fingerprint_follows_spec testPrims [1, 2, 3] [1, 2, 3] rfl

/-- C1: both peers build the same sorted-identity context regardless of
whose handshake arrives first, so with a symmetric ECDH shared secret the
handshake handler derives byte-identical session keys on both sides. -/
theorem c1_context_symmetry_key_agreement (p : CryptoPrims)
    (cfgA cfgB : Config) (stA stB : ClientState) (pubA pubB : Bytes)
    (hroom : cfgA.room = cfgB.room) (hcurve : cfgA.curve = cfgB.curve)
    (hA : stA.peerHandshakeReceived = false)
    (hB : stB.peerHandshakeReceived = false)
    (hsym : p.ecdhSecret cfgA.priv pubB = p.ecdhSecret cfgB.priv pubA) :
    mkContext cfgA.room cfgA.me cfgB.me cfgA.curve
      = mkContext cfgB.room cfgB.me cfgA.me cfgB.curve ∧
    (step p cfgA stA
        (Envelope.handshake cfgB.me (some cfgA.curve) pubB)).1.session
      = some (deriveSessionKeys p (p.ecdhSecret cfgA.priv pubB)
          (mkContext cfgA.room cfgA.me cfgB.me cfgA.curve)) ∧
    (step p cfgA stA
        (Envelope.handshake cfgB.me (some cfgA.curve) pubB)).1.session
      = (step p cfgB stB
          (Envelope.handshake cfgA.me (some cfgB.curve) pubA)).1.session := by
  have hctx : mkContext cfgA.room cfgA.me cfgB.me cfgA.curve
      = mkContext cfgB.room cfgB.me cfgA.me cfgB.curve := by
    rw [hroom, hcurve, mkContext_comm]
  refine ⟨hctx, step_handshake_session p cfgA stA cfgB.me pubB hA, ?_⟩
  rw [step_handshake_session p cfgA stA cfgB.me pubB hA,
    step_handshake_session p cfgB stB cfgA.me pubA hB, hsym, hctx]

/-- Alice's configuration in the concrete scenario. -/
def cfgAliceW : Config :=
  { room := "r1", me := "alice", peer := "bob", curve := "x25519",
    priv := [1] }

/-- Bob's configuration in the concrete scenario. -/
def cfgBobW : Config :=
  { room := "r1", me := "bob", peer := "alice", curve := "x25519",
    priv := [2] }

theorem c1_witness :
    mkContext cfgAliceW.room cfgAliceW.me cfgBobW.me cfgAliceW.curve
      = mkContext cfgBobW.room cfgBobW.me cfgAliceW.me cfgBobW.curve ∧
    (step testPrims cfgAliceW initState
        (Envelope.handshake cfgBobW.me (some cfgAliceW.curve) [2])).1.session
      = some (deriveSessionKeys testPrims
          (testPrims.ecdhSecret cfgAliceW.priv [2])
          (mkContext cfgAliceW.room cfgAliceW.me cfgBobW.me cfgAliceW.curve)) ∧
    (step testPrims cfgAliceW initState
        (Envelope.handshake cfgBobW.me (some cfgAliceW.curve) [2])).1.session
      = (step testPrims cfgBobW initState
          (Envelope.handshake cfgAliceW.me (some cfgBobW.curve) [1])).1.session :=
  c1_context_symmetry_key_agreement testPrims cfgAliceW cfgBobW
    initState initState [1] [2] rfl rfl rfl rfl rfl

/-- C3: when the recomputed HMAC does not match the received one under the
constant-time comparison, `handleEncryptedMessage` reports an
authentication failure, leaves the state untouched, and never invokes the
AES-GCM decryption core (the result is the same for every decryption
core). -/
theorem c3_auth_before_decrypt (p : CryptoPrims) (cfg : Config)
    (st : ClientState) (sess : SessionKeys) (m : InMsg)
    (hs : st.session = some sess)
    (hfail : timingSafeEq
        (hmacSha256 p sess.kMac
          (buildAad p cfg.room m.sender cfg.me m.payload.counter
            ++ m.payload.iv ++ m.payload.ct ++ m.payload.tag))
        m.payload.hmac = false) :
    ∀ dec : Bytes → Bytes → Bytes → Bytes → Bytes → Option Bytes,
      handleEncryptedMessage { p with aesGcmDecCore := dec } cfg st m
        = (st, [Effect.hmacFailed]) := by
  intro dec
  unfold handleEncryptedMessage
  rw [hs]
  simp only [hmacSha256, buildAad, List.append_assoc] at hfail ⊢
  simp [hfail]

/-- A pair of session keys for the concrete scenario. -/
def sessW : SessionKeys := { kEnc := [1], kMac := [2] }

/-- An established client state for the concrete scenario. -/
def stW3 : ClientState := { initState with session := some sessW }

/-- An inbound message whose `hmac` field is an empty byte string, so the
length guard in `timingSafeEq` fires. -/
def mW : InMsg :=
  { sender := "bob",
    payload := { counter := 1, iv := [], ct := [], tag := [], hmac := [] } }

theorem c3_witness :
    handleEncryptedMessage
        { testPrims with aesGcmDecCore := fun _ _ _ _ _ => none }
        cfgAliceW stW3 mW
      = (stW3, [Effect.hmacFailed]) :=
  c3_auth_before_decrypt testPrims cfgAliceW stW3 sessW mW rfl (by decide)
    (fun _ _ _ _ _ => none)

/-- C10: `timingSafeEq` is total: on inputs of different lengths it
returns `false` instead of raising (the underlying Node primitive requires
equal lengths), so an envelope whose `hmac` decodes to a byte string of
the wrong length is discarded cleanly as an authentication failure with
the session state unchanged. -/
theorem c10_timingSafeEq_total (a b : Bytes) (p : CryptoPrims)
    (cfg : Config) (st : ClientState) (sess : SessionKeys) (m : InMsg)
    (hlen : a.length ≠ b.length)
    (hs : st.session = some sess)
    (hml : m.payload.hmac.length ≠
      (hmacSha256 p sess.kMac
        (buildAad p cfg.room m.sender cfg.me m.payload.counter
          ++ m.payload.iv ++ m.payload.ct ++ m.payload.tag)).length) :
    timingSafeEq a b = false ∧
    handleEncryptedMessage p cfg st m = (st, [Effect.hmacFailed]) := by
  constructor
  · simp [timingSafeEq, hlen]
  · have hfail : timingSafeEq
        (hmacSha256 p sess.kMac
          (buildAad p cfg.room m.sender cfg.me m.payload.counter
            ++ m.payload.iv ++ m.payload.ct ++ m.payload.tag))
        m.payload.hmac = false := by
      unfold timingSafeEq
      rw [if_pos (Ne.symm hml)]
    unfold handleEncryptedMessage
    rw [hs]
    simp only [List.append_assoc] at hfail
    simp [hfail]

theorem c10_witness :
    timingSafeEq [1] [] = false ∧
    handleEncryptedMessage testPrims cfgAliceW stW3 mW
      = (stW3, [Effect.hmacFailed]) :=
  c10_timingSafeEq_total [1] [] testPrims cfgAliceW stW3 sessW mW
    (by decide) rfl (by decide)

theorem timingSafeEq_self (a : Bytes) : timingSafeEq a a = true := by
  simp [timingSafeEq, timingSafeEqualNode]

/-- Sealing one typed line on the sending client and handing the produced
envelope to the receiving client's `handleEncryptedMessage`. -/
def sealThenOpen (p : CryptoPrims) (cfgS cfgR : Config)
    (stS stR : ClientState) (iv : Bytes) (m : String) :
    Option (ClientState × List Effect) :=
  match sealMessage p cfgS stS iv m with
  | none => none
  | some r =>
    some (handleEncryptedMessage p cfgR stR
      { sender := cfgS.me, payload := r.2 })

/-- C2: sealing a plaintext (AES-256-GCM under a fresh IV with the AAD
bound in, then HMAC-SHA256 over `aad ++ iv ++ ct ++ tag`) and opening the
resulting envelope with the same keys and matching AAD fields delivers
exactly the original plaintext, given the AEAD round-trip and UTF-8
codec contracts of the Node primitives at those inputs. -/
theorem c2_seal_open_roundtrip (p : CryptoPrims) (cfgS cfgR : Config)
    (stS stR : ClientState) (k : SessionKeys) (iv : Bytes) (m : String)
    (hsS : stS.session = some k) (hsR : stR.session = some k)
    (hroom : cfgR.room = cfgS.room) (hme : cfgR.me = cfgS.peer)
    (hgcm : p.aesGcmDecCore k.kEnc iv
        (p.aesGcmEncCore k.kEnc iv (p.utf8Enc m)
          (buildAad p cfgS.room cfgS.me cfgS.peer (stS.sendCounter + 1))).1
        (p.aesGcmEncCore k.kEnc iv (p.utf8Enc m)
          (buildAad p cfgS.room cfgS.me cfgS.peer (stS.sendCounter + 1))).2
        (buildAad p cfgS.room cfgS.me cfgS.peer (stS.sendCounter + 1))
      = some (p.utf8Enc m))
    (hutf : p.utf8Dec (p.utf8Enc m) = m) :
    sealThenOpen p cfgS cfgR stS stR iv m
      = some ({ stR with recvCounter := stR.recvCounter + 1 },
              [Effect.messageShown cfgS.me m]) := by
  unfold sealThenOpen sealMessage
  rw [hsS]
  unfold encryptAesGcm handleEncryptedMessage
  rw [hsR]
  rw [hroom, hme]
  simp [timingSafeEq_self, decryptAesGcm, hgcm, hutf]

theorem c2_witness :
    sealThenOpen testPrims cfgAliceW cfgBobW stW3 stW3 [9] "hi"
      = some ({ stW3 with recvCounter := 1 },
              [Effect.messageShown "alice" "hi"]) :=
  c2_seal_open_roundtrip testPrims cfgAliceW cfgBobW stW3 stW3 sessW
    [9] "hi" rfl rfl rfl rfl rfl (by decide)

/-- C4 is refuted by the code: the handshake handler's curve-mismatch
branch merely returns, leaving `peerHandshakeReceived` false, so a
retransmitted handshake with a matching curve IS processed afterwards and
session keys ARE derived — there is no terminal Aborted state.  Concrete
run: a `p256` handshake is rejected, then an `x25519` handshake
establishes the session. -/
theorem c4_counterexample :
    ((step testPrims cfgAliceW
        (step testPrims cfgAliceW initState
          (Envelope.handshake "bob" (some "prime256v1") [2])).1
        (Envelope.handshake "bob" (some "x25519") [2])).1.session).isSome
      = true := by
  decide

/-- C4 amended: when the first peer handshake declares a different curve,
the handler reports the mismatch and returns with the client state
completely unchanged — in particular no session keys are derived by that
envelope.  The session is NOT terminally aborted: `peerHandshakeReceived`
stays false, so a later handshake with a matching curve is processed and
derives session keys, and a `request_handshake` is still answered with a
handshake resend. -/
theorem c4_amended_mismatch_not_terminal (p : CryptoPrims) (cfg : Config)
    (st : ClientState) (sender : String) (oc : Option String) (pub : Bytes)
    (hr : st.peerHandshakeReceived = false) (hmis : oc ≠ some cfg.curve) :
    step p cfg st (Envelope.handshake sender oc pub)
      = (st, [Effect.curveMismatch]) ∧
    (∀ sender2 pub2,
      ((step p cfg (step p cfg st (Envelope.handshake sender oc pub)).1
          (Envelope.handshake sender2 (some cfg.curve) pub2)).1.session).isSome
        = true) ∧
    (step p cfg (step p cfg st (Envelope.handshake sender oc pub)).1
        (Envelope.reqHandshake sender)).2 = [Effect.sentHandshake sender] := by
  have h1 : step p cfg st (Envelope.handshake sender oc pub)
      = (st, [Effect.curveMismatch]) := by
    unfold step
    simp [hr, hmis]
  refine ⟨h1, ?_, ?_⟩
  · intro sender2 pub2
    rw [h1]
    show ((step p cfg st (Envelope.handshake sender2 (some cfg.curve) pub2)).1.session).isSome = true
    rw [step_handshake_session p cfg st sender2 pub2 hr]
    rfl
  · rw [h1]
    rfl

theorem c4_amended_witness :
    step testPrims cfgAliceW initState
        (Envelope.handshake "bob" (some "prime256v1") [2])
      = (initState, [Effect.curveMismatch]) ∧
    ((step testPrims cfgAliceW
        (step testPrims cfgAliceW initState
          (Envelope.handshake "bob" (some "prime256v1") [2])).1
        (Envelope.handshake "bob" (some "x25519") [2])).1.session).isSome
      = true :=
  ⟨(c4_amended_mismatch_not_terminal testPrims cfgAliceW initState "bob"
      (some "prime256v1") [2] rfl (by decide)).1,
   (c4_amended_mismatch_not_terminal testPrims cfgAliceW initState "bob"
      (some "prime256v1") [2] rfl (by decide)).2.1 "bob" [2]⟩

/-- C6: a handshake envelope received while the session is already
established is a complete no-op — the state (keys, counters, queue, flags)
is returned unchanged and no effect (in particular no error) is produced.
In every reachable established state the duplicate guard
`peerHandshakeReceived` is set, so the handler returns immediately. -/
theorem c6_duplicate_handshake_noop (p : CryptoPrims) (cfg : Config)
    (st : ClientState) (keys : SessionKeys) (sender : String)
    (oc : Option String) (pub : Bytes)
    (hreach : Reachable p cfg st) (hs : st.session = some keys) :
    step p cfg st (Envelope.handshake sender oc pub) = (st, []) := by
  have hflag : st.peerHandshakeReceived = true :=
    (reachable_sessionInv p cfg hreach (by rw [hs]; rfl)).1
  unfold step
  simp [hflag]

/-- The client state reached from start-up after a join acknowledgment and
Bob's matching handshake: an established session. -/
def stEstW : ClientState :=
  (step testPrims cfgAliceW
    (step testPrims cfgAliceW initState Envelope.joinedAck).1
    (Envelope.handshake "bob" (some "x25519") [2])).1

theorem c6_witness :
    step testPrims cfgAliceW stEstW
        (Envelope.handshake "bob" (some "x25519") [2]) = (stEstW, []) :=
  c6_duplicate_handshake_noop testPrims cfgAliceW stEstW
    (deriveSessionKeys testPrims (testPrims.ecdhSecret [1] [2])
      (mkContext "r1" "alice" "bob" "x25519"))
    "bob" (some "x25519") [2]
    (Reachable.next _ (Reachable.next _ Reachable.init)) rfl

/-- C9: in every reachable state, if the session keys exist then the
pending queue is empty; and in such a state every received msg envelope is
handled immediately (passed straight to `handleEncryptedMessage`, which
never enqueues), so the queue is never drained a second time. -/
theorem c9_established_queue_empty (p : CryptoPrims) (cfg : Config)
    (st : ClientState) (hreach : Reachable p cfg st)
    (hs : st.session.isSome = true) :
    st.pendingMessages = [] ∧
    ∀ sender payload, step p cfg st (Envelope.message sender payload)
      = handleEncryptedMessage p cfg st
          { sender := sender, payload := payload } := by
  refine ⟨(reachable_sessionInv p cfg hreach hs).2, ?_⟩
  intro sender payload
  obtain ⟨k, hk⟩ := Option.isSome_iff_exists.mp hs
  unfold step
  rw [hk]

theorem c9_witness :
    stEstW.pendingMessages = [] ∧
    step testPrims cfgAliceW stEstW (Envelope.message "bob" mW.payload)
      = handleEncryptedMessage testPrims cfgAliceW stEstW
          { sender := "bob", payload := mW.payload } :=
  ⟨(c9_established_queue_empty testPrims cfgAliceW stEstW
      (Reachable.next _ (Reachable.next _ Reachable.init)) rfl).1,
   (c9_established_queue_empty testPrims cfgAliceW stEstW
      (Reachable.next _ (Reachable.next _ Reachable.init)) rfl).2
     "bob" mW.payload⟩

/-- C5: every msg envelope received before the session is established is
appended to the pending queue (not dropped); and the step that establishes
the session ends with an empty queue, its result being exactly the
established state threaded through the in-order drain loop
(`drainQueue`) over the queued envelopes, with the drain effects emitted
within that same handler run (hence before any later traffic). -/
theorem c5_pending_queue_and_drain (p : CryptoPrims) (cfg : Config)
    (st : ClientState) (sender sender2 : String) (payload : MsgPayload)
    (pub : Bytes)
    (hs : st.session = none) (hr : st.peerHandshakeReceived = false) :
    step p cfg st (Envelope.message sender payload)
      = ({ st with pendingMessages :=
            st.pendingMessages ++ [{ sender := sender, payload := payload }] },
         []) ∧
    (step p cfg st
        (Envelope.handshake sender2 (some cfg.curve) pub)).1.pendingMessages
      = [] ∧
    step p cfg st (Envelope.handshake sender2 (some cfg.curve) pub)
      = ({ (drainQueue p cfg
              { st with
                  handshakeSent := true,
                  session := some (deriveSessionKeys p
                    (p.ecdhSecret cfg.priv pub)
                    (mkContext cfg.room cfg.me sender2 cfg.curve)),
                  peerHandshakeReceived := true }
              st.pendingMessages).1 with pendingMessages := [] },
         (if st.handshakeSent then [] else [Effect.sentHandshake sender2])
           ++ (drainQueue p cfg
              { st with
                  handshakeSent := true,
                  session := some (deriveSessionKeys p
                    (p.ecdhSecret cfg.priv pub)
                    (mkContext cfg.room cfg.me sender2 cfg.curve)),
                  peerHandshakeReceived := true }
              st.pendingMessages).2) := by
  obtain ⟨j, hsentb, ses, sc, rc, phr, pm⟩ := st
  replace hs : ses = none := hs
  replace hr : phr = false := hr
  subst hs
  subst hr
  refine ⟨rfl, ?_, ?_⟩
  · cases hsentb <;> simp [step, ppm_pending]
  · cases hsentb <;> cases pm <;>
      simp [step, processPendingMessages, drainQueue]

/-- A pre-session client state with one queued message. -/
def stQW : ClientState := { initState with pendingMessages := [mW] }

theorem c5_witness :
    step testPrims cfgAliceW stQW (Envelope.message "bob" mW.payload)
      = ({ stQW with pendingMessages :=
            stQW.pendingMessages
              ++ [{ sender := "bob", payload := mW.payload }] },
         []) ∧
    (step testPrims cfgAliceW stQW
        (Envelope.handshake "bob" (some cfgAliceW.curve) [2])).1.pendingMessages
      = [] :=
  ⟨(c5_pending_queue_and_drain testPrims cfgAliceW stQW "bob" "bob"
      mW.payload [2] rfl rfl).1,
   (c5_pending_queue_and_drain testPrims cfgAliceW stQW "bob" "bob"
      mW.payload [2] rfl rfl).2.1⟩
